import Mathlib

/-!
Shallow embedding of the WhisperX job-processing microservice core:
the SQLite-backed job store (`app/models/database.py`) and the job
lifecycle endpoints plus the background processing task
(`app/api/v1/endpoints/jobs.py`).

Timestamps are modelled by a logical clock (`Nat`); float-valued
times/confidences are modelled by `Rat`. Python dictionaries with
possibly-absent keys are modelled by structures with `Option` fields,
where `none` stands for an absent key, so `dict.get(k, d)` becomes
`Option.getD`.
-/

namespace WhisperX

/-- Job status values stored in the `jobs.status` column
(enumeration `JobStatus` in `app/models/schemas.py`). -/
inductive JobStatus
  | pending
  | processing
  | completed
  | failed
  | cancelled
deriving DecidableEq

/-- Processing stages exposed in job responses
(enumeration `ProcessingStage` in `app/models/schemas.py`). -/
inductive ProcessingStage
  | upload
  | transcription
  | diarization
  | alignment
  | completed
deriving DecidableEq

/-- One entry of the `speaker_segments` list inside a result dictionary.
`speaker = none` models an absent `"speaker"` key. -/
structure SegDict where
  start : Rat
  end_ : Rat
  text : String
  speaker : Option String
deriving DecidableEq

/-- One entry of the `word_segments` list inside a result dictionary. -/
structure WordDict where
  start : Rat
  end_ : Rat
  word : String
  speaker : Option String
  confidence : Option Rat
deriving DecidableEq

/-- The result dictionary passed to `DatabaseManager.save_job_result` and
serialized into the `result_data` column. -/
structure ResultDict where
  text : String
  language : Option String
  duration : Option Rat
  word_segments : List WordDict
  speaker_segments : List SegDict
  confidence : Option Rat
  processing_time : Option Rat
  error : Option String
deriving DecidableEq

/-- One row of the `jobs` table (`DatabaseManager._create_tables`). -/
structure JobRow where
  job_id : String
  status : JobStatus
  created_at : Nat
  updated_at : Nat
  filename : String
  model_size : String
  enable_diarization : Bool
  enable_alignment : Bool
  language : Option String
  processing_time : Option Rat
  audio_duration : Option Rat
  confidence : Option Rat
  error_message : Option String
  result_data : Option ResultDict
deriving DecidableEq

/-- One row of the `speaker_segments` table. -/
structure SpeakerSegRow where
  job_id : String
  speaker : Option String
  start_time : Rat
  end_time : Rat
  text : String
deriving DecidableEq

/-- One row of the `word_segments` table. -/
structure WordSegRow where
  job_id : String
  word : String
  start_time : Rat
  end_time : Rat
  speaker : Option String
  confidence : Option Rat
deriving DecidableEq

/-- The three tables owned by `DatabaseManager`. -/
structure DBState where
  jobs : List JobRow
  speaker_segments : List SpeakerSegRow
  word_segments : List WordSegRow
deriving DecidableEq

/-- `DatabaseManager.get_job`: `SELECT * FROM jobs WHERE job_id = ?`,
returning the first matching row or `None`. -/
def DBState.findJob (db : DBState) (jid : String) : Option JobRow :=
  db.jobs.find? (fun j => j.job_id == jid)

/-- The row INSERTed by `DatabaseManager.create_job`: status defaults to
`'pending'`, both timestamps default to the current time, and every other
optional column starts NULL. -/
def createdRow (jid filename ms : String) (diar align : Bool)
    (lang : Option String) (now : Nat) : JobRow :=
  { job_id := jid, status := .pending, created_at := now, updated_at := now,
    filename := filename, model_size := ms, enable_diarization := diar,
    enable_alignment := align, language := lang, processing_time := none,
    audio_duration := none, confidence := none, error_message := none,
    result_data := none }

/-- `DatabaseManager.create_job`: INSERT of a new row. A duplicate `job_id`
violates the primary key, the exception is caught and the method returns
`False` with no change committed. The `job_data` built by the upload
endpoint carries no `"language"` key, so the column is whatever `language`
argument reaches this call. -/
def DBState.create_job (db : DBState) (jid filename ms : String)
    (diar align : Bool) (lang : Option String) (now : Nat) : Bool × DBState :=
  if db.jobs.any (fun j => j.job_id == jid) then
    (false, db)
  else
    (true, { db with jobs :=
      db.jobs ++ [createdRow jid filename ms diar align lang now] })

/-- Python truthiness of an optional string: `None` and `""` are falsy. -/
def pyTruthy : Option String → Bool
  | some s => s != ""
  | none => false

/-- The per-row effect of `DatabaseManager.update_job_status` on the
matching row: the code branches on `if error_message:` (Python truthiness),
so `None` and the empty string both take the status-only branch, and
`updated_at` is refreshed in either branch. -/
def updRow (status : JobStatus) (error_message : Option String) (now : Nat)
    (j : JobRow) : JobRow :=
  if pyTruthy error_message then
    { j with status := status, error_message := error_message, updated_at := now }
  else
    { j with status := status, updated_at := now }

/-- `DatabaseManager.update_job_status`: a single UPDATE on the row with the
given `job_id`, followed by a commit and `return True`. An unknown `job_id`
makes the UPDATE match zero rows; the commit still succeeds and the method
still returns `True`. -/
def DBState.update_job_status (db : DBState) (jid : String) (status : JobStatus)
    (error_message : Option String) (now : Nat) : Bool × DBState :=
  (true, { db with jobs := db.jobs.map (fun j =>
    if j.job_id == jid then updRow status error_message now j else j) })

/-- The job-row effect of `DatabaseManager.save_job_result`: status is set to
`'completed'`, the scalar columns are copied from the result dictionary via
`.get`, the full dictionary is serialized into `result_data`, and
`updated_at` is refreshed. -/
def saveRow (result : ResultDict) (now : Nat) (j : JobRow) : JobRow :=
  { j with status := .completed,
           processing_time := result.processing_time,
           audio_duration := result.duration,
           language := result.language,
           confidence := result.confidence,
           result_data := some result,
           updated_at := now }

/-- The `speaker_segments` row inserted by `save_job_result` for one
dictionary entry: `segment.get("speaker", "UNKNOWN")` etc. -/
def segRowOf (jid : String) (s : SegDict) : SpeakerSegRow :=
  { job_id := jid, speaker := some (s.speaker.getD "UNKNOWN"),
    start_time := s.start, end_time := s.end_, text := s.text }

/-- The `word_segments` row inserted by `save_job_result` for one
dictionary entry: `word.get("speaker", "UNKNOWN")`,
`word.get("confidence", 0.8)`. -/
def wordRowOf (jid : String) (w : WordDict) : WordSegRow :=
  { job_id := jid, word := w.word, start_time := w.start, end_time := w.end_,
    speaker := some (w.speaker.getD "UNKNOWN"),
    confidence := some (w.confidence.getD (4/5)) }

/-- `DatabaseManager.save_job_result`: inside one `sqlite3.connect` context
(a single transaction committed at the end) the job row is updated to
`'completed'` with the serialized result, and the exploded speaker-segment
and word-segment rows are inserted. -/
def DBState.save_job_result (db : DBState) (jid : String) (result : ResultDict)
    (now : Nat) : Bool × DBState :=
  (true,
   { jobs := db.jobs.map (fun j =>
       if j.job_id == jid then saveRow result now j else j),
     speaker_segments :=
       db.speaker_segments ++ result.speaker_segments.map (segRowOf jid),
     word_segments :=
       db.word_segments ++ result.word_segments.map (wordRowOf jid) })

/-- Insertion into a list already sorted by `created_at` descending. -/
def insertByCreatedDesc (j : JobRow) : List JobRow → List JobRow
  | [] => [j]
  | k :: ks =>
    if k.created_at ≤ j.created_at then j :: k :: ks
    else k :: insertByCreatedDesc j ks

/-- `ORDER BY created_at DESC` modelled as an insertion sort. -/
def sortByCreatedDesc : List JobRow → List JobRow
  | [] => []
  | j :: js => insertByCreatedDesc j (sortByCreatedDesc js)

/-- `DatabaseManager.get_jobs`: optional `WHERE status = ?` filter,
`ORDER BY created_at DESC`, then `LIMIT ? OFFSET ?`. -/
def DBState.get_jobs (db : DBState) (limit offset : Nat)
    (status : Option JobStatus) : List JobRow :=
  let rows := match status with
    | some s => db.jobs.filter (fun j => decide (j.status = s))
    | none => db.jobs
  ((sortByCreatedDesc rows).drop offset).take limit

/-- HTTP-level failures raised by the endpoints. -/
inductive HttpError
  | notFound
  | badRequest (detail : String)
  | serverError
deriving DecidableEq

/-- The externally visible job view (`JobResponse` in `app/models/schemas.py`). -/
structure JobResponse where
  job_id : String
  status : JobStatus
  created_at : Nat
  updated_at : Nat
  audio_file : String
  model_size : String
  enable_diarization : Bool
  enable_alignment : Bool
  progress : Rat
  current_stage : ProcessingStage
  processing_time : Option Rat
  audio_duration : Option Rat
  language : Option String
  confidence : Option Rat
  error_message : Option String
  result : Option ResultDict
deriving DecidableEq

/-- Row-to-response conversion shared by `get_job` and `list_jobs`
(`app/api/v1/endpoints/jobs.py`): `progress` is `1.0` exactly when the stored
status is `"completed"` and `0.0` otherwise, and `current_stage` is
`COMPLETED` exactly when the stored status is `"completed"` and `UPLOAD`
otherwise. -/
def rowToResponse (j : JobRow) : JobResponse :=
  { job_id := j.job_id, status := j.status, created_at := j.created_at,
    updated_at := j.updated_at, audio_file := j.filename,
    model_size := j.model_size, enable_diarization := j.enable_diarization,
    enable_alignment := j.enable_alignment,
    progress := if j.status = .completed then 1 else 0,
    current_stage := if j.status = .completed then .completed else .upload,
    processing_time := j.processing_time, audio_duration := j.audio_duration,
    language := j.language, confidence := j.confidence,
    error_message := j.error_message, result := j.result_data }

/-- `GET /{job_id}` (`get_job` in `jobs.py`). -/
def get_job_endpoint (db : DBState) (jid : String) :
    Except HttpError JobResponse :=
  match db.findJob jid with
  | none => .error .notFound
  | some j => .ok (rowToResponse j)

/-- `JobListResponse` from `app/models/schemas.py`. -/
structure JobListResponse where
  jobs : List JobResponse
  total : Nat
  page : Nat
  per_page : Nat
  has_next : Bool
  has_prev : Bool
deriving DecidableEq

/-- `GET /` (`list_jobs` in `jobs.py`): one page is fetched with
`limit=per_page, offset=(page-1)*per_page`; the reported `total` is the
length of a second query issued with `limit=1000` (and default offset 0). -/
def list_jobs_endpoint (db : DBState) (page per_page : Nat)
    (status : Option JobStatus) : JobListResponse :=
  let offset := (page - 1) * per_page
  let pageJobs := db.get_jobs per_page offset status
  let all_jobs := db.get_jobs 1000 0 status
  let total := all_jobs.length
  { jobs := pageJobs.map rowToResponse, total := total, page := page,
    per_page := per_page,
    has_next := decide (page * per_page < total),
    has_prev := decide (1 < page) }

/-- `DELETE /{job_id}` (`cancel_job` in `jobs.py`): 404 when the job does
not exist; 400 when its status is `"completed"` or `"failed"` (these are the
only statuses rejected); otherwise the status is updated to `"cancelled"`. -/
def cancel_job_endpoint (db : DBState) (jid : String) (now : Nat) :
    Except HttpError String × DBState :=
  match db.findJob jid with
  | none => (.error .notFound, db)
  | some j =>
    if j.status = .completed ∨ j.status = .failed then
      (.error (.badRequest "Cannot cancel completed or failed job"), db)
    else
      let r := db.update_job_status jid .cancelled none now
      if r.1 then (.ok "Job cancelled successfully", r.2)
      else (.error .serverError, db)

/-- `POST /{job_id}/retry` (`retry_job` in `jobs.py`): 404 when the job does
not exist; 400 unless the status is `"failed"`; otherwise the status is reset
to `"pending"` (with no error-message argument) and a fresh `JobResponse` is
built whose optional fields are left at their defaults. -/
def retry_job_endpoint (db : DBState) (jid : String) (now : Nat) :
    Except HttpError JobResponse × DBState :=
  match db.findJob jid with
  | none => (.error .notFound, db)
  | some j =>
    if j.status = .failed then
      (.ok { job_id := jid, status := .pending, created_at := j.created_at,
             updated_at := now, audio_file := j.filename,
             model_size := j.model_size,
             enable_diarization := j.enable_diarization,
             enable_alignment := j.enable_alignment, progress := 0,
             current_stage := .upload, processing_time := none,
             audio_duration := none, language := none, confidence := none,
             error_message := none, result := none },
       (db.update_job_status jid .pending none now).2)
    else
      (.error (.badRequest "Only failed jobs can be retried"), db)

/-- A word inside a segment of the raw engine output dictionary. -/
structure EngWord where
  start : Rat
  end_ : Rat
  word : String
  speaker : Option String
deriving DecidableEq

/-- A segment of the raw engine output dictionary
(`whisperx_service.transcribe_audio` result). -/
structure EngSegment where
  start : Rat
  end_ : Rat
  text : String
  speaker : Option String
  words : List EngWord
deriving DecidableEq

/-- The raw engine output dictionary: `{"segments": ..., "language": ...}`. -/
structure EngResult where
  segments : List EngSegment
  language : Option String
deriving DecidableEq

/-- Normalization of one engine segment into a `speaker_segments` entry
(`process_audio_job`, success path): `segment.get("speaker", "UNKNOWN")`. -/
def normalizeSegment (s : EngSegment) : SegDict :=
  { start := s.start, end_ := s.end_, text := s.text,
    speaker := some (s.speaker.getD "UNKNOWN") }

/-- Normalization of one engine word into a `word_segments` entry
(`process_audio_job`, success path): `word.get("speaker", "UNKNOWN")` and a
hard-coded confidence of 0.8. -/
def normalizeWord (w : EngWord) : WordDict :=
  { start := w.start, end_ := w.end_, word := w.word,
    speaker := some (w.speaker.getD "UNKNOWN"), confidence := some (4/5) }

/-- Running maximum of segment end times. -/
def maxEndAux (a : Rat) : List EngSegment → Rat
  | [] => a
  | s :: ss => maxEndAux (max a s.end_) ss

/-- `max(seg.get("end", 0) for seg in segments)` when `segments` is
non-empty, and the initial `0.0` otherwise. -/
def segmentsDuration : List EngSegment → Rat
  | [] => 0
  | s :: ss => maxEndAux s.end_ ss

/-- `" ".join(seg.get("text", "") for seg in segments)`. -/
def joinTexts (segs : List EngSegment) : String :=
  String.intercalate " " (segs.map (fun s => s.text))

/-- The `result_dict` built by `process_audio_job` from a successful engine
result (jobs.py lines 452-496). -/
def normalizeResult (res : EngResult) (elapsed : Rat) : ResultDict :=
  { text := joinTexts res.segments,
    language := some (res.language.getD "en"),
    duration := some (segmentsDuration res.segments),
    word_segments :=
      (res.segments.map (fun s => s.words.map normalizeWord)).flatten,
    speaker_segments := res.segments.map normalizeSegment,
    confidence := some (4/5),
    processing_time := some elapsed,
    error := none }

/-- Python `language or "en"`: `None` and `""` both give `"en"`. -/
def pyOrEn : Option String → String
  | some s => if s = "" then "en" else s
  | none => "en"

/-- The `partial_result` dictionary `process_audio_job` saves when the
engine call raises (jobs.py lines 431-442): empty segment lists, zero
confidence, and the exception text recorded under an extra `"error"` key. -/
def failedRunResult (language : Option String) (elapsed : Rat)
    (errMsg : String) : ResultDict :=
  { text := "Transcription failed", language := some (pyOrEn language),
    duration := some 0, word_segments := [], speaker_segments := [],
    confidence := some 0, processing_time := some elapsed,
    error := some errMsg }

/-- One database transaction issued by the background task. -/
inductive Txn
  | updStatus (status : JobStatus) (error_message : Option String)
  | saveResult (result : ResultDict)
deriving DecidableEq

/-- Effect of one transaction on the store. -/
def applyTxn (jid : String) (t : Txn) (now : Nat) (db : DBState) : DBState :=
  match t with
  | .updStatus st msg => (db.update_job_status jid st msg now).2
  | .saveResult r => (db.save_job_result jid r now).2

/-- How one background execution ends: the engine returns a result after
`elapsed` seconds, the engine call raises with message `msg`, or an
unexpected fault with message `msg` occurs after the engine call but before
the result is saved. -/
inductive Outcome
  | success (res : EngResult) (elapsed : Rat)
  | engineRaise (msg : String) (elapsed : Rat)
  | normFault (msg : String)
deriving DecidableEq

/-- The sequence of database transactions one `process_audio_job` run
issues (jobs.py lines 398-511). The run first marks the job
`"processing"`. On success it saves the normalized result. When the engine
call raises, the code first saves a "partial" completed result and then
re-raises so the outer handler marks the job `"failed"` with `str(e)`.
A fault between transcription and saving skips the partial save and goes
straight to the outer handler. -/
def processTxns (language : Option String) : Outcome → List Txn
  | .success res elapsed =>
      [.updStatus .processing none,
       .saveResult (normalizeResult res elapsed)]
  | .engineRaise msg elapsed =>
      [.updStatus .processing none,
       .saveResult (failedRunResult language elapsed msg),
       .updStatus .failed (some msg)]
  | .normFault msg =>
      [.updStatus .processing none,
       .updStatus .failed (some msg)]

/-- Sequential application of a run's transactions, one clock tick each. -/
def applyTxns (jid : String) (ts : List Txn) (now : Nat) (db : DBState) :
    DBState :=
  match ts with
  | [] => db
  | t :: rest => applyTxns jid rest (now + 1) (applyTxn jid t now db)

/-- One scheduled background execution: the job it processes and the
transactions it has not yet issued. -/
structure Task where
  job_id : String
  txns : List Txn
deriving DecidableEq

/-- The whole system: the store, the scheduled background executions, and a
logical clock supplying `datetime.utcnow()`. -/
structure SysState where
  db : DBState
  tasks : List Task
  clock : Nat
deriving DecidableEq

/-- The freshly initialized service: empty tables, no background work. -/
def initState : SysState :=
  { db := { jobs := [], speaker_segments := [], word_segments := [] },
    tasks := [], clock := 0 }

/-- State after the upload endpoint accepts a file: the job row is created
(`job_data` carries no `"language"` key, so the column is NULL) and one
background run is scheduled with the request's language option. -/
def uploadStepFn (s : SysState) (jid fn ms : String) (diar align : Bool)
    (lang : Option String) (o : Outcome) : SysState :=
  { db := (s.db.create_job jid fn ms diar align none s.clock).2,
    tasks := s.tasks ++ [{ job_id := jid, txns := processTxns lang o }],
    clock := s.clock + 1 }

/-- State after a scheduled run issues its next transaction. -/
def taskStepFn (s : SysState) (before after : List Task) (jid : String)
    (t : Txn) (rest : List Txn) : SysState :=
  { db := applyTxn jid t s.clock s.db,
    tasks := before ++
      (match rest with
       | [] => after
       | _ => { job_id := jid, txns := rest } :: after),
    clock := s.clock + 1 }

/-- State after a successful cancel request. -/
def cancelStepFn (s : SysState) (jid : String) : SysState :=
  { db := (cancel_job_endpoint s.db jid s.clock).2, tasks := s.tasks,
    clock := s.clock + 1 }

/-- State after a successful retry request: the status is reset and a new
background run is scheduled with the job's recorded options
(`job.get("language")`). -/
def retryStepFn (s : SysState) (jid : String) (lang : Option String)
    (o : Outcome) : SysState :=
  { db := (retry_job_endpoint s.db jid s.clock).2,
    tasks := s.tasks ++ [{ job_id := jid, txns := processTxns lang o }],
    clock := s.clock + 1 }

/-- Interleaving semantics of the public operations, at the granularity of
the individual database transactions they commit. The predicate `P`
restricts which engine outcomes are considered. Guards mirror the code:
upload schedules work only when the INSERT succeeded; cancel requires the
job to exist with status outside `{"completed", "failed"}`; retry requires
status `"failed"`. -/
inductive Step (P : Outcome → Prop) : SysState → SysState → Prop
  | upload (s : SysState) (jid fn ms : String) (diar align : Bool)
      (lang : Option String) (o : Outcome) :
      P o → (s.db.create_job jid fn ms diar align none s.clock).1 = true →
      Step P s (uploadStepFn s jid fn ms diar align lang o)
  | task (s : SysState) (before after : List Task) (jid : String) (t : Txn)
      (rest : List Txn) :
      s.tasks = before ++ { job_id := jid, txns := t :: rest } :: after →
      Step P s (taskStepFn s before after jid t rest)
  | cancel (s : SysState) (jid : String) (j : JobRow) :
      s.db.findJob jid = some j →
      ¬(j.status = .completed ∨ j.status = .failed) →
      Step P s (cancelStepFn s jid)
  | retry (s : SysState) (jid : String) (j : JobRow) (o : Outcome) :
      P o → s.db.findJob jid = some j → j.status = .failed →
      Step P s (retryStepFn s jid j.language o)

/-- States reachable from the fresh service through the public operations. -/
def Reachable (P : Outcome → Prop) (s : SysState) : Prop :=
  Relation.ReflTransGen (Step P) initState s

/-- The suffixes of `processTxns` a task's remaining transaction list can
be, by outcome. -/
def runSuffixes (language : Option String) (o : Outcome) : List (List Txn) :=
  match o with
  | .success res elapsed =>
      [[.updStatus .processing none,
        .saveResult (normalizeResult res elapsed)],
       [.saveResult (normalizeResult res elapsed)]]
  | .engineRaise msg elapsed =>
      [[.updStatus .processing none,
        .saveResult (failedRunResult language elapsed msg),
        .updStatus .failed (some msg)],
       [.saveResult (failedRunResult language elapsed msg),
        .updStatus .failed (some msg)],
       [.updStatus .failed (some msg)]]
  | .normFault msg =>
      [[.updStatus .processing none, .updStatus .failed (some msg)],
       [.updStatus .failed (some msg)]]

/-- Inductive invariant of the reachable states. Besides the externally
meaningful clauses (`completed_result`, `seg_completed`) it carries the
bookkeeping facts needed to push the invariant through each step: segment
rows belong to jobs whose run already finished, at most one run per job is
in flight, a job with an in-flight run is never in status `"failed"`, and
every in-flight transaction list is a suffix of some run. -/
structure Inv (P : Outcome → Prop) (s : SysState) : Prop where
  completed_result : ∀ j ∈ s.db.jobs, j.status = .completed →
    j.result_data ≠ none
  seg_completed : ∀ r ∈ s.db.speaker_segments, ∀ j ∈ s.db.jobs,
    j.job_id = r.job_id → j.status = .completed
  seg_no_task : ∀ r ∈ s.db.speaker_segments, ∀ t ∈ s.tasks,
    t.job_id ≠ r.job_id
  seg_job : ∀ r ∈ s.db.speaker_segments, ∃ j ∈ s.db.jobs,
    j.job_id = r.job_id
  task_not_failed : ∀ t ∈ s.tasks, ∀ j ∈ s.db.jobs,
    j.job_id = t.job_id → j.status ≠ .failed
  task_job : ∀ t ∈ s.tasks, ∃ j ∈ s.db.jobs, j.job_id = t.job_id
  task_unique : s.tasks.Pairwise (fun a b => a.job_id ≠ b.job_id)
  task_shape : ∀ t ∈ s.tasks, ∃ lang o, P o ∧ t.txns ∈ runSuffixes lang o

/-- Outcomes whose failure description is non-empty (Python-truthy). -/
def NEOutcome : Outcome → Prop
  | .success _ _ => True
  | .engineRaise msg _ => msg ≠ ""
  | .normFault msg => msg ≠ ""

/-- A store in which every failed job records an error message. -/
def FailedHasError (s : SysState) : Prop :=
  ∀ j ∈ s.db.jobs, j.status = .failed → j.error_message ≠ none

/-- The number of stored jobs matching a status filter, with no LIMIT or
OFFSET applied (the true total a paginated listing should report). -/
def matchCount (db : DBState) (status : Option JobStatus) : Nat :=
  match status with
  | some st => (db.jobs.filter (fun j => decide (j.status = st))).length
  | none => db.jobs.length

/-! ### Concrete fixtures used by the witnesses and counterexamples -/

/-- An empty store. -/
def dbEmpty : DBState :=
  { jobs := [], speaker_segments := [], word_segments := [] }

/-- A freshly created pending job `"a"`. -/
def pendingRowA : JobRow := createdRow "a" "a.wav" "base" true true none 0

/-- A store holding only the pending job `"a"`. -/
def dbPendingA : DBState :=
  { jobs := [pendingRowA], speaker_segments := [], word_segments := [] }

/-- A job `"b"` in status `"processing"`. -/
def processingRowB : JobRow :=
  { createdRow "b" "b.wav" "base" true true none 0 with status := .processing }

/-- A store holding only the processing job `"b"`. -/
def dbProcessingB : DBState :=
  { jobs := [processingRowB], speaker_segments := [], word_segments := [] }

/-- A job `"c"` already in status `"cancelled"`. -/
def cancelledRowC : JobRow :=
  { createdRow "c" "c.wav" "base" true true none 0 with status := .cancelled }

/-- A store holding only the cancelled job `"c"`. -/
def dbCancelledC : DBState :=
  { jobs := [cancelledRowC], speaker_segments := [], word_segments := [] }

/-- A job `"d"` in status `"failed"` with a recorded error message. -/
def failedRowD : JobRow :=
  { createdRow "d" "d.wav" "base" true true none 0 with
      status := .failed, error_message := some "boom d" }

/-- A store holding only the failed job `"d"`. -/
def dbFailedD : DBState :=
  { jobs := [failedRowD], speaker_segments := [], word_segments := [] }

/-- A completed job `"x"` with a stored result payload. -/
def completedRowX : JobRow :=
  { createdRow "x" "x.wav" "base" true true none 0 with
      status := .completed,
      result_data := some (failedRunResult none 1 "zz") }

/-- A store holding only the completed job `"x"`. -/
def dbCompletedX : DBState :=
  { jobs := [completedRowX], speaker_segments := [], word_segments := [] }

/-- One of 1001 pending jobs, numbered by creation time. -/
def manyJob (i : Nat) : JobRow := createdRow (toString i) "f.wav" "base" true true none i

/-- A store holding 1001 jobs (more than the hard-coded count limit 1000). -/
def dbMany : DBState :=
  { jobs := (List.range 1001).map manyJob, speaker_segments := [],
    word_segments := [] }

/-- An engine segment with no speaker label, containing one unlabeled word. -/
def engSegU : EngSegment :=
  { start := 0, end_ := 1, text := "hi", speaker := none,
    words := [{ start := 0, end_ := 1, word := "hi", speaker := none }] }

/-- An engine result whose only segment is unlabeled. -/
def engResU : EngResult := { segments := [engSegU], language := none }

/-- The `speaker_segments` row the pipeline stores for the unlabeled
segment. -/
def segRowU : SpeakerSegRow := segRowOf "u" (normalizeSegment engSegU)

/-! ### A concrete trace: upload, engine failure, retry -/

/-- The engine outcome used in the concrete trace: the engine call raises
with message `"boom"` after one second. -/
def boomOutcome : Outcome := .engineRaise "boom" 1

/-- The engine outcome used by the retry in the concrete trace. -/
def retryOutcome : Outcome := .success { segments := [], language := none } 0

/-- Trace state after uploading job `"a"`. -/
def traceS1 : SysState :=
  uploadStepFn initState "a" "a.wav" "base" true true none boomOutcome

/-- Trace state after the run marks `"a"` as processing. -/
def traceS2 : SysState :=
  taskStepFn traceS1 [] [] "a" (.updStatus .processing none)
    [.saveResult (failedRunResult none 1 "boom"),
     .updStatus .failed (some "boom")]

/-- Trace state after the run saves the partial "completed" result. -/
def traceS3 : SysState :=
  taskStepFn traceS2 [] [] "a" (.saveResult (failedRunResult none 1 "boom"))
    [.updStatus .failed (some "boom")]

/-- Trace state after the outer handler marks `"a"` as failed. -/
def traceS4 : SysState :=
  taskStepFn traceS3 [] [] "a" (.updStatus .failed (some "boom")) []

/-- Trace state after a successful retry request for `"a"`. -/
def traceS5 : SysState := retryStepFn traceS4 "a" (some "en") retryOutcome

/-- The row of job `"a"` in `traceS3`: completed, with the partial result
stored, and no error message yet. -/
def c1CompletedRow : JobRow :=
  { job_id := "a", status := .completed, created_at := 0, updated_at := 2,
    filename := "a.wav", model_size := "base", enable_diarization := true,
    enable_alignment := true, language := some "en",
    processing_time := some 1, audio_duration := some 0,
    confidence := some 0, error_message := none,
    result_data := some (failedRunResult none 1 "boom") }

/-- The row of job `"a"` in `traceS4`: failed with the error recorded,
the partial result still present. -/
def c1FailedRow : JobRow :=
  { c1CompletedRow with
      status := .failed, updated_at := 3, error_message := some "boom" }

/-- The row of job `"a"` in `traceS5`: back to pending after retry, still
carrying the previous failure's error message and result payload. -/
def c1PendingRow : JobRow :=
  { c1FailedRow with status := .pending, updated_at := 4 }

/-! ### Row-level helper lemmas -/

theorem updRow_job_id (st : JobStatus) (msg : Option String) (now : Nat)
    (j : JobRow) : (updRow st msg now j).job_id = j.job_id := by
  unfold updRow; split <;> rfl

theorem updRow_status (st : JobStatus) (msg : Option String) (now : Nat)
    (j : JobRow) : (updRow st msg now j).status = st := by
  unfold updRow; split <;> rfl

theorem updRow_updated_at (st : JobStatus) (msg : Option String) (now : Nat)
    (j : JobRow) : (updRow st msg now j).updated_at = now := by
  unfold updRow; split <;> rfl

theorem updRow_result_data (st : JobStatus) (msg : Option String) (now : Nat)
    (j : JobRow) : (updRow st msg now j).result_data = j.result_data := by
  unfold updRow; split <;> rfl

theorem updRow_none (st : JobStatus) (now : Nat) (j : JobRow) :
    updRow st none now j = { j with status := st, updated_at := now } := rfl

theorem updRow_error_of_truthy (st : JobStatus) (msg : String) (now : Nat)
    (j : JobRow) (h : msg ≠ "") :
    (updRow st (some msg) now j).error_message = some msg := by
  unfold updRow pyTruthy
  simp only [bne_iff_ne, ne_eq, h, not_false_eq_true, if_true]

theorem saveRow_job_id (r : ResultDict) (now : Nat) (j : JobRow) :
    (saveRow r now j).job_id = j.job_id := rfl

theorem saveRow_status (r : ResultDict) (now : Nat) (j : JobRow) :
    (saveRow r now j).status = .completed := rfl

theorem saveRow_result_data (r : ResultDict) (now : Nat) (j : JobRow) :
    (saveRow r now j).result_data = some r := rfl

/-! ### Store-level helper lemmas -/

theorem update_jobs_eq (db : DBState) (jid : String) (st : JobStatus)
    (msg : Option String) (now : Nat) :
    (db.update_job_status jid st msg now).2.jobs =
      db.jobs.map (fun j => if j.job_id == jid then updRow st msg now j else j) :=
  rfl

theorem update_segments_eq (db : DBState) (jid : String) (st : JobStatus)
    (msg : Option String) (now : Nat) :
    (db.update_job_status jid st msg now).2.speaker_segments =
      db.speaker_segments := rfl

theorem save_jobs_eq (db : DBState) (jid : String) (r : ResultDict)
    (now : Nat) :
    (db.save_job_result jid r now).2.jobs =
      db.jobs.map (fun j => if j.job_id == jid then saveRow r now j else j) :=
  rfl

theorem save_segments_eq (db : DBState) (jid : String) (r : ResultDict)
    (now : Nat) :
    (db.save_job_result jid r now).2.speaker_segments =
      db.speaker_segments ++ r.speaker_segments.map (segRowOf jid) := rfl

theorem find?_map_of_id_pres (f : JobRow → JobRow)
    (hf : ∀ j, (f j).job_id = j.job_id) (l : List JobRow) (jid : String) :
    (l.map f).find? (fun j => j.job_id == jid) =
      (l.find? (fun j => j.job_id == jid)).map f := by
  induction l with
  | nil => rfl
  | cons a l ih =>
    by_cases h : a.job_id = jid
    · simp [List.find?_cons, hf, h]
    · simp [List.find?_cons, hf, h, ih]

theorem findJob_update (db : DBState) (jid jid2 : String) (st : JobStatus)
    (msg : Option String) (now : Nat) :
    (db.update_job_status jid st msg now).2.findJob jid2 =
      (db.findJob jid2).map
        (fun j => if j.job_id == jid then updRow st msg now j else j) := by
  unfold DBState.findJob
  rw [update_jobs_eq]
  exact find?_map_of_id_pres _ (fun j => by by_cases h : j.job_id = jid <;>
    simp [h, updRow_job_id]) _ _

theorem findJob_save (db : DBState) (jid jid2 : String) (r : ResultDict)
    (now : Nat) :
    (db.save_job_result jid r now).2.findJob jid2 =
      (db.findJob jid2).map
        (fun j => if j.job_id == jid then saveRow r now j else j) := by
  unfold DBState.findJob
  rw [save_jobs_eq]
  exact find?_map_of_id_pres _ (fun j => by by_cases h : j.job_id = jid <;>
    simp [h, saveRow_job_id]) _ _

theorem findJob_mem (db : DBState) (jid : String) (j : JobRow)
    (h : db.findJob jid = some j) : j ∈ db.jobs ∧ j.job_id = jid := by
  refine ⟨List.mem_of_find?_eq_some h, ?_⟩
  have := List.find?_some h
  simpa using this

theorem create_job_fresh (db : DBState) (jid fn ms : String) (d a : Bool)
    (lang : Option String) (now : Nat)
    (h : (db.create_job jid fn ms d a lang now).1 = true) :
    ∀ j ∈ db.jobs, j.job_id ≠ jid := by
  intro j hj
  unfold DBState.create_job at h
  by_cases hany : db.jobs.any (fun j => j.job_id == jid)
  · simp [hany] at h
  · intro hid
    exact hany (List.any_eq_true.mpr ⟨j, hj, by simp [hid]⟩)

theorem create_job_db (db : DBState) (jid fn ms : String) (d a : Bool)
    (lang : Option String) (now : Nat)
    (h : (db.create_job jid fn ms d a lang now).1 = true) :
    (db.create_job jid fn ms d a lang now).2 =
      { db with jobs := db.jobs ++ [createdRow jid fn ms d a lang now] } := by
  unfold DBState.create_job at h ⊢
  by_cases hany : db.jobs.any (fun j => j.job_id == jid)
  · simp [hany] at h
  · simp [hany]

theorem mem_map_ite (f : JobRow → JobRow) (jid : String) (l : List JobRow)
    (j2 : JobRow)
    (h : j2 ∈ l.map (fun j => if j.job_id == jid then f j else j)) :
    ∃ j ∈ l, (j.job_id = jid ∧ j2 = f j) ∨ (j.job_id ≠ jid ∧ j2 = j) := by
  obtain ⟨j, hj, hj2⟩ := List.mem_map.mp h
  refine ⟨j, hj, ?_⟩
  by_cases hid : j.job_id = jid
  · left; exact ⟨hid, by rw [← hj2]; simp [hid]⟩
  · right; exact ⟨hid, by rw [← hj2]; simp [hid]⟩

theorem exists_mem_map_ite_same_id (f : JobRow → JobRow)
    (hf : ∀ k, (f k).job_id = k.job_id) (jid : String) (l : List JobRow)
    (j : JobRow) (hj : j ∈ l) :
    ∃ j2 ∈ l.map (fun k => if k.job_id == jid then f k else k),
      j2.job_id = j.job_id := by
  refine ⟨if j.job_id == jid then f j else j,
    List.mem_map_of_mem _ hj, ?_⟩
  by_cases h : j.job_id = jid <;> simp [h, hf]

theorem pairwise_others (before after : List Task) (mid : Task)
    (h : (before ++ mid :: after).Pairwise (fun x y => x.job_id ≠ y.job_id)) :
    ∀ t2, t2 ∈ before ∨ t2 ∈ after → t2.job_id ≠ mid.job_id := by
  rw [List.pairwise_append] at h
  obtain ⟨h1, h2, h3⟩ := h
  intro t2 ht2
  rcases ht2 with h4 | h4
  · exact h3 t2 h4 mid (by simp)
  · rw [List.pairwise_cons] at h2
    exact fun hc => h2.1 t2 h4 hc.symm

theorem pairwise_erase_mid (before after : List Task) (mid : Task)
    (h : (before ++ mid :: after).Pairwise (fun x y => x.job_id ≠ y.job_id)) :
    (before ++ after).Pairwise (fun x y => x.job_id ≠ y.job_id) := by
  refine h.sublist ?_
  exact List.Sublist.append (List.Sublist.refl before)
    (List.sublist_cons_self mid after)

theorem pairwise_replace_mid (before after : List Task) (mid mid2 : Task)
    (hid : mid2.job_id = mid.job_id)
    (h : (before ++ mid :: after).Pairwise (fun x y => x.job_id ≠ y.job_id)) :
    (before ++ mid2 :: after).Pairwise (fun x y => x.job_id ≠ y.job_id) := by
  rw [List.pairwise_append] at h ⊢
  obtain ⟨h1, h2, h3⟩ := h
  rw [List.pairwise_cons] at h2 ⊢
  refine ⟨h1, ⟨?_, h2.2⟩, ?_⟩
  · intro a ha; rw [hid]; exact h2.1 a ha
  · intro x hx y hy
    rcases List.mem_cons.mp hy with rfl | hy2
    · rw [hid]; exact h3 x hx mid (by simp)
    · exact h3 x hx y (List.mem_cons_of_mem _ hy2)

theorem processTxns_mem_runSuffixes (lang : Option String) (o : Outcome) :
    processTxns lang o ∈ runSuffixes lang o := by
  cases o <;> simp [processTxns, runSuffixes]

theorem cancel_db_eq (db : DBState) (jid : String) (now : Nat) (j : JobRow)
    (hfind : db.findJob jid = some j)
    (hstat : ¬(j.status = .completed ∨ j.status = .failed)) :
    (cancel_job_endpoint db jid now).2 =
      (db.update_job_status jid .cancelled none now).2 := by
  unfold cancel_job_endpoint
  rw [hfind]
  simp [hstat, DBState.update_job_status]

theorem retry_db_eq (db : DBState) (jid : String) (now : Nat) (j : JobRow)
    (hfind : db.findJob jid = some j) (hstat : j.status = .failed) :
    (retry_job_endpoint db jid now).2 =
      (db.update_job_status jid .pending none now).2 := by
  unfold retry_job_endpoint
  rw [hfind]
  simp [hstat]

theorem inv_upload (P : Outcome → Prop) (s : SysState) (jid fn ms : String)
    (d a : Bool) (lang : Option String) (o : Outcome) (hP : P o)
    (hok : (s.db.create_job jid fn ms d a none s.clock).1 = true)
    (hinv : Inv P s) : Inv P (uploadStepFn s jid fn ms d a lang o) := by
  have hfresh := create_job_fresh s.db jid fn ms d a none s.clock hok
  have hdb := create_job_db s.db jid fn ms d a none s.clock hok
  have hjobs : (uploadStepFn s jid fn ms d a lang o).db.jobs
      = s.db.jobs ++ [createdRow jid fn ms d a none s.clock] := by
    simp [uploadStepFn, hdb]
  have hsegs : (uploadStepFn s jid fn ms d a lang o).db.speaker_segments
      = s.db.speaker_segments := by simp [uploadStepFn, hdb]
  have htasks : (uploadStepFn s jid fn ms d a lang o).tasks
      = s.tasks ++ [{ job_id := jid, txns := processTxns lang o }] := rfl
  constructor
  · intro j hj hc
    rw [hjobs] at hj
    rcases List.mem_append.mp hj with h | h
    · exact hinv.completed_result j h hc
    · simp only [List.mem_singleton] at h
      subst h
      simp [createdRow] at hc
  · intro r hr j hj hid
    rw [hsegs] at hr
    rw [hjobs] at hj
    rcases List.mem_append.mp hj with h | h
    · exact hinv.seg_completed r hr j h hid
    · simp only [List.mem_singleton] at h
      subst h
      obtain ⟨j0, hj0, hj0id⟩ := hinv.seg_job r hr
      have hjj : j0.job_id = jid := by
        rw [hj0id, ← hid]; rfl
      exact absurd hjj (hfresh j0 hj0)
  · intro r hr t ht
    rw [hsegs] at hr
    rw [htasks] at ht
    rcases List.mem_append.mp ht with h | h
    · exact hinv.seg_no_task r hr t h
    · simp only [List.mem_singleton] at h
      subst h
      intro hcontra
      obtain ⟨j0, hj0, hj0id⟩ := hinv.seg_job r hr
      exact hfresh j0 hj0 (by rw [hj0id, ← hcontra])
  · intro r hr
    rw [hsegs] at hr
    obtain ⟨j0, hj0, hj0id⟩ := hinv.seg_job r hr
    exact ⟨j0, by rw [hjobs]; exact List.mem_append_left _ hj0, hj0id⟩
  · intro t ht j hj hid
    rw [htasks] at ht
    rw [hjobs] at hj
    rcases List.mem_append.mp ht with hto | htn
    · rcases List.mem_append.mp hj with hjo | hjn
      · exact hinv.task_not_failed t hto j hjo hid
      · simp only [List.mem_singleton] at hjn
        subst hjn
        obtain ⟨j0, hj0, hj0id⟩ := hinv.task_job t hto
        have hjj : j0.job_id = jid := by rw [hj0id, ← hid]; rfl
        exact absurd hjj (hfresh j0 hj0)
    · simp only [List.mem_singleton] at htn
      subst htn
      rcases List.mem_append.mp hj with hjo | hjn
      · have hjj : j.job_id = jid := hid
        exact absurd hjj (hfresh j hjo)
      · simp only [List.mem_singleton] at hjn
        subst hjn
        simp [createdRow]
  · intro t ht
    rw [htasks] at ht
    rcases List.mem_append.mp ht with h | h
    · obtain ⟨j0, hj0, hj0id⟩ := hinv.task_job t h
      exact ⟨j0, by rw [hjobs]; exact List.mem_append_left _ hj0, hj0id⟩
    · simp only [List.mem_singleton] at h
      subst h
      exact ⟨createdRow jid fn ms d a none s.clock,
        by rw [hjobs]; exact List.mem_append_right _ (by simp), rfl⟩
  · rw [htasks]
    rw [List.pairwise_append]
    refine ⟨hinv.task_unique, by simp, ?_⟩
    intro t ht t2 ht2
    simp only [List.mem_singleton] at ht2
    subst ht2
    intro hcontra
    obtain ⟨j0, hj0, hj0id⟩ := hinv.task_job t ht
    exact hfresh j0 hj0 (by rw [hj0id, hcontra])
  · intro t ht
    rw [htasks] at ht
    rcases List.mem_append.mp ht with h | h
    · exact hinv.task_shape t h
    · simp only [List.mem_singleton] at h
      subst h
      exact ⟨lang, o, hP, processTxns_mem_runSuffixes lang o⟩

theorem inv_cancel (P : Outcome → Prop) (s : SysState) (jid : String)
    (j : JobRow) (hfind : s.db.findJob jid = some j)
    (hstat : ¬(j.status = .completed ∨ j.status = .failed))
    (hinv : Inv P s) : Inv P (cancelStepFn s jid) := by
  have hdb := cancel_db_eq s.db jid s.clock j hfind hstat
  have hjobs : (cancelStepFn s jid).db.jobs
      = s.db.jobs.map
          (fun k => if k.job_id == jid then updRow .cancelled none s.clock k else k) := by
    simp [cancelStepFn, hdb, update_jobs_eq]
  have hsegs : (cancelStepFn s jid).db.speaker_segments
      = s.db.speaker_segments := by
    simp [cancelStepFn, hdb, update_segments_eq]
  have htasks : (cancelStepFn s jid).tasks = s.tasks := rfl
  obtain ⟨hjmem, hjid⟩ := findJob_mem _ _ _ hfind
  have hnoseg : ∀ r ∈ s.db.speaker_segments, r.job_id ≠ jid := by
    intro r hr hcontra
    exact hstat (Or.inl
      (hinv.seg_completed r hr j hjmem (hjid.trans hcontra.symm)))
  constructor
  · intro j2 hj2 hc
    rw [hjobs] at hj2
    obtain ⟨j0, hj0, hcase⟩ := mem_map_ite _ jid _ _ hj2
    rcases hcase with ⟨hid0, heq⟩ | ⟨hid0, heq⟩ <;> subst heq
    · rw [updRow_status] at hc
      exact absurd hc (by decide)
    · exact hinv.completed_result j2 hj0 hc
  · intro r hr j2 hj2 hid
    rw [hsegs] at hr
    rw [hjobs] at hj2
    obtain ⟨j0, hj0, hcase⟩ := mem_map_ite _ jid _ _ hj2
    rcases hcase with ⟨hid0, heq⟩ | ⟨hid0, heq⟩ <;> subst heq
    · rw [updRow_job_id] at hid
      exact absurd (hid.symm.trans hid0) (hnoseg r hr)
    · exact hinv.seg_completed r hr j2 hj0 hid
  · intro r hr t ht
    rw [hsegs] at hr
    rw [htasks] at ht
    exact hinv.seg_no_task r hr t ht
  · intro r hr
    rw [hsegs] at hr
    obtain ⟨j0, hj0, hj0id⟩ := hinv.seg_job r hr
    obtain ⟨j2, hj2, hj2id⟩ := exists_mem_map_ite_same_id
      (updRow .cancelled none s.clock) (updRow_job_id _ _ _) jid _ j0 hj0
    exact ⟨j2, by rw [hjobs]; exact hj2, hj2id.trans hj0id⟩
  · intro t ht j2 hj2 hid
    rw [htasks] at ht
    rw [hjobs] at hj2
    obtain ⟨j0, hj0, hcase⟩ := mem_map_ite _ jid _ _ hj2
    rcases hcase with ⟨hid0, heq⟩ | ⟨hid0, heq⟩ <;> subst heq
    · rw [updRow_status]; decide
    · exact hinv.task_not_failed t ht j2 hj0 hid
  · intro t ht
    rw [htasks] at ht
    obtain ⟨j0, hj0, hj0id⟩ := hinv.task_job t ht
    obtain ⟨j2, hj2, hj2id⟩ := exists_mem_map_ite_same_id
      (updRow .cancelled none s.clock) (updRow_job_id _ _ _) jid _ j0 hj0
    exact ⟨j2, by rw [hjobs]; exact hj2, hj2id.trans hj0id⟩
  · rw [htasks]
    exact hinv.task_unique
  · intro t ht
    rw [htasks] at ht
    exact hinv.task_shape t ht

theorem inv_retry (P : Outcome → Prop) (s : SysState) (jid : String)
    (j : JobRow) (o : Outcome) (hP : P o)
    (hfind : s.db.findJob jid = some j) (hstat : j.status = .failed)
    (hinv : Inv P s) : Inv P (retryStepFn s jid j.language o) := by
  have hdb := retry_db_eq s.db jid s.clock j hfind hstat
  have hjobs : (retryStepFn s jid j.language o).db.jobs
      = s.db.jobs.map
          (fun k => if k.job_id == jid then updRow .pending none s.clock k else k) := by
    simp [retryStepFn, hdb, update_jobs_eq]
  have hsegs : (retryStepFn s jid j.language o).db.speaker_segments
      = s.db.speaker_segments := by
    simp [retryStepFn, hdb, update_segments_eq]
  have htasks : (retryStepFn s jid j.language o).tasks
      = s.tasks ++ [{ job_id := jid, txns := processTxns j.language o }] := rfl
  obtain ⟨hjmem, hjid⟩ := findJob_mem _ _ _ hfind
  have hnoseg : ∀ r ∈ s.db.speaker_segments, r.job_id ≠ jid := by
    intro r hr hcontra
    have := hinv.seg_completed r hr j hjmem (hjid.trans hcontra.symm)
    rw [hstat] at this
    exact absurd this (by decide)
  have hnotask : ∀ t ∈ s.tasks, t.job_id ≠ jid := by
    intro t ht hcontra
    exact hinv.task_not_failed t ht j hjmem (hjid.trans hcontra.symm) hstat
  constructor
  · intro j2 hj2 hc
    rw [hjobs] at hj2
    obtain ⟨j0, hj0, hcase⟩ := mem_map_ite _ jid _ _ hj2
    rcases hcase with ⟨hid0, heq⟩ | ⟨hid0, heq⟩ <;> subst heq
    · rw [updRow_status] at hc
      exact absurd hc (by decide)
    · exact hinv.completed_result j2 hj0 hc
  · intro r hr j2 hj2 hid
    rw [hsegs] at hr
    rw [hjobs] at hj2
    obtain ⟨j0, hj0, hcase⟩ := mem_map_ite _ jid _ _ hj2
    rcases hcase with ⟨hid0, heq⟩ | ⟨hid0, heq⟩ <;> subst heq
    · rw [updRow_job_id] at hid
      exact absurd (hid.symm.trans hid0) (hnoseg r hr)
    · exact hinv.seg_completed r hr j2 hj0 hid
  · intro r hr t ht
    rw [hsegs] at hr
    rw [htasks] at ht
    rcases List.mem_append.mp ht with h | h
    · exact hinv.seg_no_task r hr t h
    · simp only [List.mem_singleton] at h
      subst h
      intro hcontra
      exact hnoseg r hr hcontra.symm
  · intro r hr
    rw [hsegs] at hr
    obtain ⟨j0, hj0, hj0id⟩ := hinv.seg_job r hr
    obtain ⟨j2, hj2, hj2id⟩ := exists_mem_map_ite_same_id
      (updRow .pending none s.clock) (updRow_job_id _ _ _) jid _ j0 hj0
    exact ⟨j2, by rw [hjobs]; exact hj2, hj2id.trans hj0id⟩
  · intro t ht j2 hj2 hid
    rw [hjobs] at hj2
    obtain ⟨j0, hj0, hcase⟩ := mem_map_ite _ jid _ _ hj2
    rcases hcase with ⟨hid0, heq⟩ | ⟨hid0, heq⟩ <;> subst heq
    · rw [updRow_status]; decide
    · rw [htasks] at ht
      rcases List.mem_append.mp ht with h | h
      · exact hinv.task_not_failed t h j2 hj0 hid
      · simp only [List.mem_singleton] at h
        subst h
        exact absurd hid hid0
  · intro t ht
    rw [htasks] at ht
    rcases List.mem_append.mp ht with h | h
    · obtain ⟨j0, hj0, hj0id⟩ := hinv.task_job t h
      obtain ⟨j2, hj2, hj2id⟩ := exists_mem_map_ite_same_id
        (updRow .pending none s.clock) (updRow_job_id _ _ _) jid _ j0 hj0
      exact ⟨j2, by rw [hjobs]; exact hj2, hj2id.trans hj0id⟩
    · simp only [List.mem_singleton] at h
      subst h
      obtain ⟨j2, hj2, hj2id⟩ := exists_mem_map_ite_same_id
        (updRow .pending none s.clock) (updRow_job_id _ _ _) jid _ j hjmem
      exact ⟨j2, by rw [hjobs]; exact hj2, hj2id.trans hjid⟩
  · rw [htasks]
    rw [List.pairwise_append]
    refine ⟨hinv.task_unique, by simp, ?_⟩
    intro t ht t2 ht2
    simp only [List.mem_singleton] at ht2
    subst ht2
    exact hnotask t ht
  · intro t ht
    rw [htasks] at ht
    rcases List.mem_append.mp ht with h | h
    · exact hinv.task_shape t h
    · simp only [List.mem_singleton] at h
      subst h
      exact ⟨j.language, o, hP, processTxns_mem_runSuffixes j.language o⟩

theorem mem_taskStep_tasks (s : SysState) (before after : List Task)
    (jid : String) (t : Txn) (rest : List Txn) (t2 : Task)
    (h : t2 ∈ (taskStepFn s before after jid t rest).tasks) :
    (t2 ∈ before ∨ t2 ∈ after) ∨
      (rest ≠ [] ∧ t2 = { job_id := jid, txns := rest }) := by
  unfold taskStepFn at h
  rcases rest with _ | ⟨r0, rest2⟩
  · simp only [List.mem_append] at h
    exact Or.inl h
  · simp only [List.mem_append, List.mem_cons] at h
    rcases h with h | h | h
    · exact Or.inl (Or.inl h)
    · exact Or.inr ⟨by simp, h⟩
    · exact Or.inl (Or.inr h)

theorem pairwise_taskStep (s : SysState) (before after : List Task)
    (jid : String) (t : Txn) (rest : List Txn)
    (hTasks : s.tasks = before ++ { job_id := jid, txns := t :: rest } :: after)
    (hp : s.tasks.Pairwise (fun a b => a.job_id ≠ b.job_id)) :
    (taskStepFn s before after jid t rest).tasks.Pairwise
      (fun a b => a.job_id ≠ b.job_id) := by
  rw [hTasks] at hp
  unfold taskStepFn
  rcases rest with _ | ⟨r0, rest2⟩
  · exact pairwise_erase_mid before after _ hp
  · exact pairwise_replace_mid before after
      { job_id := jid, txns := t :: r0 :: rest2 }
      { job_id := jid, txns := r0 :: rest2 } rfl hp

theorem inv_task_upd (P : Outcome → Prop) (s : SysState)
    (before after : List Task) (jid : String) (st : JobStatus)
    (msg : Option String) (rest : List Txn)
    (hTasks : s.tasks =
      before ++ { job_id := jid, txns := Txn.updStatus st msg :: rest } :: after)
    (hstc : st ≠ .completed)
    (hstf : st = .failed → rest = [])
    (hrest : rest ≠ [] → ∃ lang o, P o ∧ rest ∈ runSuffixes lang o)
    (hinv : Inv P s) :
    Inv P (taskStepFn s before after jid (Txn.updStatus st msg) rest) := by
  have hmid : ({ job_id := jid, txns := Txn.updStatus st msg :: rest } : Task)
      ∈ s.tasks := by rw [hTasks]; simp
  have hnoseg : ∀ r ∈ s.db.speaker_segments, r.job_id ≠ jid :=
    fun r hr h => hinv.seg_no_task r hr _ hmid h.symm
  have hothers : ∀ t2, t2 ∈ before ∨ t2 ∈ after → t2.job_id ≠ jid :=
    pairwise_others before after _ (hTasks ▸ hinv.task_unique)
  have hsub : ∀ t2, t2 ∈ before ∨ t2 ∈ after → t2 ∈ s.tasks := by
    intro t2 h
    rw [hTasks]
    rcases h with h | h
    · exact List.mem_append_left _ h
    · exact List.mem_append_right _ (List.mem_cons_of_mem _ h)
  have hjobs : (taskStepFn s before after jid (Txn.updStatus st msg) rest).db.jobs
      = s.db.jobs.map
          (fun k => if k.job_id == jid then updRow st msg s.clock k else k) := rfl
  have hsegs :
      (taskStepFn s before after jid (Txn.updStatus st msg) rest).db.speaker_segments
      = s.db.speaker_segments := rfl
  constructor
  · intro j2 hj2 hc
    rw [hjobs] at hj2
    obtain ⟨j0, hj0, hcase⟩ := mem_map_ite _ jid _ _ hj2
    rcases hcase with ⟨hid0, heq⟩ | ⟨hid0, heq⟩ <;> subst heq
    · rw [updRow_status] at hc
      exact absurd hc hstc
    · exact hinv.completed_result j2 hj0 hc
  · intro r hr j2 hj2 hid
    rw [hsegs] at hr
    rw [hjobs] at hj2
    obtain ⟨j0, hj0, hcase⟩ := mem_map_ite _ jid _ _ hj2
    rcases hcase with ⟨hid0, heq⟩ | ⟨hid0, heq⟩ <;> subst heq
    · rw [updRow_job_id] at hid
      exact absurd (hid.symm.trans hid0) (hnoseg r hr)
    · exact hinv.seg_completed r hr j2 hj0 hid
  · intro r hr t2 ht2
    rw [hsegs] at hr
    rcases mem_taskStep_tasks s before after jid _ rest t2 ht2 with h | ⟨hne, heqt⟩
    · exact hinv.seg_no_task r hr t2 (hsub t2 h)
    · subst heqt
      exact fun hc => hnoseg r hr hc.symm
  · intro r hr
    rw [hsegs] at hr
    obtain ⟨j0, hj0, hj0id⟩ := hinv.seg_job r hr
    obtain ⟨j2, hj2, hj2id⟩ := exists_mem_map_ite_same_id
      (updRow st msg s.clock) (updRow_job_id _ _ _) jid _ j0 hj0
    exact ⟨j2, by rw [hjobs]; exact hj2, hj2id.trans hj0id⟩
  · intro t2 ht2 j2 hj2 hid
    rw [hjobs] at hj2
    obtain ⟨j0, hj0, hcase⟩ := mem_map_ite _ jid _ _ hj2
    rcases mem_taskStep_tasks s before after jid _ rest t2 ht2 with hbf | ⟨hne, heqt⟩
    · rcases hcase with ⟨hid0, heq⟩ | ⟨hid0, heq⟩ <;> subst heq
      · rw [updRow_job_id] at hid
        exact absurd (hid ▸ hid0) (hothers t2 hbf)
      · exact hinv.task_not_failed t2 (hsub t2 hbf) j2 hj0 hid
    · subst heqt
      rcases hcase with ⟨hid0, heq⟩ | ⟨hid0, heq⟩ <;> subst heq
      · rw [updRow_status]
        intro hfail
        exact hne (hstf hfail)
      · exact absurd hid hid0
  · intro t2 ht2
    rcases mem_taskStep_tasks s before after jid _ rest t2 ht2 with hbf | ⟨hne, heqt⟩
    · obtain ⟨j0, hj0, hj0id⟩ := hinv.task_job t2 (hsub t2 hbf)
      obtain ⟨j2, hj2, hj2id⟩ := exists_mem_map_ite_same_id
        (updRow st msg s.clock) (updRow_job_id _ _ _) jid _ j0 hj0
      exact ⟨j2, by rw [hjobs]; exact hj2, hj2id.trans hj0id⟩
    · subst heqt
      obtain ⟨j0, hj0, hj0id⟩ := hinv.task_job _ hmid
      obtain ⟨j2, hj2, hj2id⟩ := exists_mem_map_ite_same_id
        (updRow st msg s.clock) (updRow_job_id _ _ _) jid _ j0 hj0
      exact ⟨j2, by rw [hjobs]; exact hj2, hj2id.trans hj0id⟩
  · exact pairwise_taskStep s before after jid _ rest hTasks hinv.task_unique
  · intro t2 ht2
    rcases mem_taskStep_tasks s before after jid _ rest t2 ht2 with hbf | ⟨hne, heqt⟩
    · exact hinv.task_shape t2 (hsub t2 hbf)
    · subst heqt
      exact hrest hne

theorem inv_task_save (P : Outcome → Prop) (s : SysState)
    (before after : List Task) (jid : String) (r : ResultDict)
    (rest : List Txn)
    (hTasks : s.tasks =
      before ++ { job_id := jid, txns := Txn.saveResult r :: rest } :: after)
    (hempt : rest ≠ [] → r.speaker_segments = [])
    (hrest : rest ≠ [] → ∃ lang o, P o ∧ rest ∈ runSuffixes lang o)
    (hinv : Inv P s) :
    Inv P (taskStepFn s before after jid (Txn.saveResult r) rest) := by
  have hmid : ({ job_id := jid, txns := Txn.saveResult r :: rest } : Task)
      ∈ s.tasks := by rw [hTasks]; simp
  have hnoseg : ∀ r2 ∈ s.db.speaker_segments, r2.job_id ≠ jid :=
    fun r2 hr h => hinv.seg_no_task r2 hr _ hmid h.symm
  have hothers : ∀ t2, t2 ∈ before ∨ t2 ∈ after → t2.job_id ≠ jid :=
    pairwise_others before after _ (hTasks ▸ hinv.task_unique)
  have hsub : ∀ t2, t2 ∈ before ∨ t2 ∈ after → t2 ∈ s.tasks := by
    intro t2 h
    rw [hTasks]
    rcases h with h | h
    · exact List.mem_append_left _ h
    · exact List.mem_append_right _ (List.mem_cons_of_mem _ h)
  have hjobs : (taskStepFn s before after jid (Txn.saveResult r) rest).db.jobs
      = s.db.jobs.map
          (fun k => if k.job_id == jid then saveRow r s.clock k else k) := rfl
  have hsegs :
      (taskStepFn s before after jid (Txn.saveResult r) rest).db.speaker_segments
      = s.db.speaker_segments ++ r.speaker_segments.map (segRowOf jid) := rfl
  have hnew : ∀ r2 ∈ r.speaker_segments.map (segRowOf jid), r2.job_id = jid := by
    intro r2 hr2
    obtain ⟨s0, _, heq⟩ := List.mem_map.mp hr2
    rw [← heq]
    rfl
  constructor
  · intro j2 hj2 hc
    rw [hjobs] at hj2
    obtain ⟨j0, hj0, hcase⟩ := mem_map_ite _ jid _ _ hj2
    rcases hcase with ⟨hid0, heq⟩ | ⟨hid0, heq⟩ <;> subst heq
    · rw [saveRow_result_data]
      exact Option.some_ne_none r
    · exact hinv.completed_result j2 hj0 hc
  · intro r2 hr2 j2 hj2 hid
    rw [hsegs] at hr2
    rw [hjobs] at hj2
    obtain ⟨j0, hj0, hcase⟩ := mem_map_ite _ jid _ _ hj2
    rcases List.mem_append.mp hr2 with hold | hnew2
    · rcases hcase with ⟨hid0, heq⟩ | ⟨hid0, heq⟩ <;> subst heq
      · rw [saveRow_job_id] at hid
        exact absurd (hid.symm.trans hid0) (hnoseg r2 hold)
      · exact hinv.seg_completed r2 hold j2 hj0 hid
    · have hr2id : r2.job_id = jid := hnew r2 hnew2
      rcases hcase with ⟨hid0, heq⟩ | ⟨hid0, heq⟩ <;> subst heq
      · exact saveRow_status r s.clock j0
      · rw [hr2id] at hid
        exact absurd hid hid0
  · intro r2 hr2 t2 ht2
    rw [hsegs] at hr2
    rcases List.mem_append.mp hr2 with hold | hnew2
    · rcases mem_taskStep_tasks s before after jid _ rest t2 ht2 with h | ⟨hne, heqt⟩
      · exact hinv.seg_no_task r2 hold t2 (hsub t2 h)
      · subst heqt
        exact fun hc => hnoseg r2 hold hc.symm
    · have hr2id : r2.job_id = jid := hnew r2 hnew2
      rcases mem_taskStep_tasks s before after jid _ rest t2 ht2 with h | ⟨hne, heqt⟩
      · rw [hr2id]
        exact hothers t2 h
      · rw [hempt hne] at hnew2
        simp at hnew2
  · intro r2 hr2
    rw [hsegs] at hr2
    rcases List.mem_append.mp hr2 with hold | hnew2
    · obtain ⟨j0, hj0, hj0id⟩ := hinv.seg_job r2 hold
      obtain ⟨j2, hj2, hj2id⟩ := exists_mem_map_ite_same_id
        (saveRow r s.clock) (saveRow_job_id _ _) jid _ j0 hj0
      exact ⟨j2, by rw [hjobs]; exact hj2, hj2id.trans hj0id⟩
    · have hr2id : r2.job_id = jid := hnew r2 hnew2
      obtain ⟨j0, hj0, hj0id⟩ := hinv.task_job _ hmid
      obtain ⟨j2, hj2, hj2id⟩ := exists_mem_map_ite_same_id
        (saveRow r s.clock) (saveRow_job_id _ _) jid _ j0 hj0
      exact ⟨j2, by rw [hjobs]; exact hj2, by rw [hj2id, hj0id, hr2id]⟩
  · intro t2 ht2 j2 hj2 hid
    rw [hjobs] at hj2
    obtain ⟨j0, hj0, hcase⟩ := mem_map_ite _ jid _ _ hj2
    rcases hcase with ⟨hid0, heq⟩ | ⟨hid0, heq⟩ <;> subst heq
    · rw [saveRow_status]
      decide
    · rcases mem_taskStep_tasks s before after jid _ rest t2 ht2 with hbf | ⟨hne, heqt⟩
      · exact hinv.task_not_failed t2 (hsub t2 hbf) j2 hj0 hid
      · subst heqt
        exact absurd hid hid0
  · intro t2 ht2
    rcases mem_taskStep_tasks s before after jid _ rest t2 ht2 with hbf | ⟨hne, heqt⟩
    · obtain ⟨j0, hj0, hj0id⟩ := hinv.task_job t2 (hsub t2 hbf)
      obtain ⟨j2, hj2, hj2id⟩ := exists_mem_map_ite_same_id
        (saveRow r s.clock) (saveRow_job_id _ _) jid _ j0 hj0
      exact ⟨j2, by rw [hjobs]; exact hj2, hj2id.trans hj0id⟩
    · subst heqt
      obtain ⟨j0, hj0, hj0id⟩ := hinv.task_job _ hmid
      obtain ⟨j2, hj2, hj2id⟩ := exists_mem_map_ite_same_id
        (saveRow r s.clock) (saveRow_job_id _ _) jid _ j0 hj0
      exact ⟨j2, by rw [hjobs]; exact hj2, hj2id.trans hj0id⟩
  · exact pairwise_taskStep s before after jid _ rest hTasks hinv.task_unique
  · intro t2 ht2
    rcases mem_taskStep_tasks s before after jid _ rest t2 ht2 with hbf | ⟨hne, heqt⟩
    · exact hinv.task_shape t2 (hsub t2 hbf)
    · subst heqt
      exact hrest hne

theorem inv_task (P : Outcome → Prop) (s : SysState) (before after : List Task)
    (jid : String) (t : Txn) (rest : List Txn)
    (hTasks : s.tasks = before ++ { job_id := jid, txns := t :: rest } :: after)
    (hinv : Inv P s) : Inv P (taskStepFn s before after jid t rest) := by
  have hmid : ({ job_id := jid, txns := t :: rest } : Task) ∈ s.tasks := by
    rw [hTasks]; simp
  obtain ⟨lang, o, hPo, hshape⟩ := hinv.task_shape _ hmid
  rcases o with ⟨res, el⟩ | ⟨msg, el⟩ | msg <;>
    simp only [runSuffixes, List.mem_cons, List.not_mem_nil, or_false,
      List.cons.injEq] at hshape
  · rcases hshape with ⟨ht, hrest⟩ | ⟨ht, hrest⟩ <;> subst ht <;> subst hrest
    · exact inv_task_upd P s before after jid .processing none _ hTasks
        (by decide) (fun h => absurd h (by decide))
        (fun _ => ⟨lang, .success res el, hPo, by simp [runSuffixes]⟩) hinv
    · exact inv_task_save P s before after jid _ [] hTasks
        (fun h => absurd rfl h) (fun h => absurd rfl h) hinv
  · rcases hshape with ⟨ht, hrest⟩ | ⟨ht, hrest⟩ | ⟨ht, hrest⟩ <;>
      subst ht <;> subst hrest
    · exact inv_task_upd P s before after jid .processing none _ hTasks
        (by decide) (fun h => absurd h (by decide))
        (fun _ => ⟨lang, .engineRaise msg el, hPo, by simp [runSuffixes]⟩) hinv
    · exact inv_task_save P s before after jid _ _ hTasks
        (fun _ => rfl)
        (fun _ => ⟨lang, .engineRaise msg el, hPo, by simp [runSuffixes]⟩) hinv
    · exact inv_task_upd P s before after jid .failed (some msg) [] hTasks
        (by decide) (fun _ => rfl) (fun h => absurd rfl h) hinv
  · rcases hshape with ⟨ht, hrest⟩ | ⟨ht, hrest⟩ <;> subst ht <;> subst hrest
    · exact inv_task_upd P s before after jid .processing none _ hTasks
        (by decide) (fun h => absurd h (by decide))
        (fun _ => ⟨lang, .normFault msg, hPo, by simp [runSuffixes]⟩) hinv
    · exact inv_task_upd P s before after jid .failed (some msg) [] hTasks
        (by decide) (fun _ => rfl) (fun h => absurd rfl h) hinv

theorem inv_init (P : Outcome → Prop) : Inv P initState := by
  constructor <;> simp [initState]

theorem inv_step (P : Outcome → Prop) (s s2 : SysState) (h : Step P s s2)
    (hinv : Inv P s) : Inv P s2 := by
  cases h with
  | upload jid fn ms d a lang o hP hok =>
    exact inv_upload P s jid fn ms d a lang o hP hok hinv
  | task before after jid t rest hTasks =>
    exact inv_task P s before after jid t rest hTasks hinv
  | cancel jid j hfind hstat =>
    exact inv_cancel P s jid j hfind hstat hinv
  | retry jid j o hP hfind hstat =>
    exact inv_retry P s jid j o hP hfind hstat hinv

theorem reachable_inv (P : Outcome → Prop) (s : SysState)
    (h : Reachable P s) : Inv P s := by
  unfold Reachable at h
  induction h with
  | refl => exact inv_init P
  | tail h1 h2 ih => exact inv_step P _ _ h2 ih

theorem failed_error_init : FailedHasError initState := by
  intro j hj
  simp [initState] at hj

theorem failed_error_upd_nf (db : DBState) (jid : String) (st : JobStatus)
    (msg : Option String) (now : Nat) (hst : st ≠ .failed)
    (hfe : ∀ j ∈ db.jobs, j.status = .failed → j.error_message ≠ none) :
    ∀ j ∈ (db.update_job_status jid st msg now).2.jobs,
      j.status = .failed → j.error_message ≠ none := by
  intro j hj hf
  rw [update_jobs_eq] at hj
  obtain ⟨j0, hj0, hcase⟩ := mem_map_ite _ jid _ _ hj
  rcases hcase with ⟨hid0, heq⟩ | ⟨hid0, heq⟩ <;> subst heq
  · rw [updRow_status] at hf
    exact absurd hf hst
  · exact hfe j hj0 hf

theorem failed_error_upd_f (db : DBState) (jid : String) (msg : String)
    (now : Nat) (hmsg : msg ≠ "")
    (hfe : ∀ j ∈ db.jobs, j.status = .failed → j.error_message ≠ none) :
    ∀ j ∈ (db.update_job_status jid .failed (some msg) now).2.jobs,
      j.status = .failed → j.error_message ≠ none := by
  intro j hj hf
  rw [update_jobs_eq] at hj
  obtain ⟨j0, hj0, hcase⟩ := mem_map_ite _ jid _ _ hj
  rcases hcase with ⟨hid0, heq⟩ | ⟨hid0, heq⟩ <;> subst heq
  · rw [updRow_error_of_truthy _ _ _ _ hmsg]
    exact Option.some_ne_none msg
  · exact hfe j hj0 hf

theorem failed_error_save (db : DBState) (jid : String) (r : ResultDict)
    (now : Nat)
    (hfe : ∀ j ∈ db.jobs, j.status = .failed → j.error_message ≠ none) :
    ∀ j ∈ (db.save_job_result jid r now).2.jobs,
      j.status = .failed → j.error_message ≠ none := by
  intro j hj hf
  rw [save_jobs_eq] at hj
  obtain ⟨j0, hj0, hcase⟩ := mem_map_ite _ jid _ _ hj
  rcases hcase with ⟨hid0, heq⟩ | ⟨hid0, heq⟩ <;> subst heq
  · rw [saveRow_status] at hf
    exact absurd hf (by decide)
  · exact hfe j hj0 hf

theorem failed_error_step (P : Outcome → Prop) (s s2 : SysState)
    (hNE : ∀ o, P o → NEOutcome o) (h : Step P s s2) (hinv : Inv P s)
    (hfe : FailedHasError s) : FailedHasError s2 := by
  cases h with
  | upload jid fn ms d a lang o hP hok =>
    intro j hj hf
    have hdb := create_job_db s.db jid fn ms d a none s.clock hok
    rw [show (uploadStepFn s jid fn ms d a lang o).db.jobs
        = s.db.jobs ++ [createdRow jid fn ms d a none s.clock] from by
      simp [uploadStepFn, hdb]] at hj
    rcases List.mem_append.mp hj with h | h
    · exact hfe j h hf
    · simp only [List.mem_singleton] at h
      subst h
      simp [createdRow] at hf
  | task before after jid t rest hTasks =>
    have hmid : ({ job_id := jid, txns := t :: rest } : Task) ∈ s.tasks := by
      rw [hTasks]; simp
    obtain ⟨lang, o, hPo, hshape⟩ := hinv.task_shape _ hmid
    have hjobs : (taskStepFn s before after jid t rest).db
        = applyTxn jid t s.clock s.db := rfl
    rcases o with ⟨res, el⟩ | ⟨msg, el⟩ | msg <;>
      simp only [runSuffixes, List.mem_cons, List.not_mem_nil, or_false,
        List.cons.injEq] at hshape
    · rcases hshape with ⟨ht, hrest⟩ | ⟨ht, hrest⟩ <;> subst ht <;> subst hrest
      · exact failed_error_upd_nf s.db jid .processing none s.clock
          (by decide) hfe
      · exact failed_error_save s.db jid _ s.clock hfe
    · have hmsg : msg ≠ "" := hNE _ hPo
      rcases hshape with ⟨ht, hrest⟩ | ⟨ht, hrest⟩ | ⟨ht, hrest⟩ <;>
        subst ht <;> subst hrest
      · exact failed_error_upd_nf s.db jid .processing none s.clock
          (by decide) hfe
      · exact failed_error_save s.db jid _ s.clock hfe
      · exact failed_error_upd_f s.db jid msg s.clock hmsg hfe
    · have hmsg : msg ≠ "" := hNE _ hPo
      rcases hshape with ⟨ht, hrest⟩ | ⟨ht, hrest⟩ <;> subst ht <;> subst hrest
      · exact failed_error_upd_nf s.db jid .processing none s.clock
          (by decide) hfe
      · exact failed_error_upd_f s.db jid msg s.clock hmsg hfe
  | cancel jid j hfind hstat =>
    intro j2 hj2 hf
    have hdb := cancel_db_eq s.db jid s.clock j hfind hstat
    rw [show (cancelStepFn s jid).db
        = (s.db.update_job_status jid .cancelled none s.clock).2 from by
      simp [cancelStepFn, hdb]] at hj2
    exact failed_error_upd_nf s.db jid .cancelled none s.clock
      (by decide) hfe j2 hj2 hf
  | retry jid j o hP hfind hstat =>
    intro j2 hj2 hf
    have hdb := retry_db_eq s.db jid s.clock j hfind hstat
    rw [show (retryStepFn s jid j.language o).db
        = (s.db.update_job_status jid .pending none s.clock).2 from by
      simp [retryStepFn, hdb]] at hj2
    exact failed_error_upd_nf s.db jid .pending none s.clock
      (by decide) hfe j2 hj2 hf

theorem reachable_inv_failed (P : Outcome → Prop) (s : SysState)
    (hNE : ∀ o, P o → NEOutcome o) (h : Reachable P s) :
    Inv P s ∧ FailedHasError s := by
  unfold Reachable at h
  induction h with
  | refl => exact ⟨inv_init P, failed_error_init⟩
  | tail h1 h2 ih =>
    exact ⟨inv_step P _ _ h2 ih.1, failed_error_step P _ _ hNE h2 ih.1 ih.2⟩

theorem trace_step1 (P : Outcome → Prop) (hP : P boomOutcome) :
    Step P initState traceS1 :=
  Step.upload initState "a" "a.wav" "base" true true none boomOutcome hP rfl

theorem trace_step2 (P : Outcome → Prop) : Step P traceS1 traceS2 :=
  Step.task traceS1 [] [] "a" (.updStatus .processing none)
    [.saveResult (failedRunResult none 1 "boom"),
     .updStatus .failed (some "boom")] rfl

theorem trace_step3 (P : Outcome → Prop) : Step P traceS2 traceS3 :=
  Step.task traceS2 [] [] "a" (.saveResult (failedRunResult none 1 "boom"))
    [.updStatus .failed (some "boom")] rfl

theorem trace_step4 (P : Outcome → Prop) : Step P traceS3 traceS4 :=
  Step.task traceS3 [] [] "a" (.updStatus .failed (some "boom")) [] rfl

theorem trace_find4 : traceS4.db.findJob "a" = some c1FailedRow := by decide

theorem trace_step5 (P : Outcome → Prop) (hP : P retryOutcome) :
    Step P traceS4 traceS5 :=
  Step.retry traceS4 "a" c1FailedRow retryOutcome hP trace_find4 rfl

theorem trace_reach3 (P : Outcome → Prop) (hP : P boomOutcome) :
    Relation.ReflTransGen (Step P) initState traceS3 :=
  ((Relation.ReflTransGen.refl.tail (trace_step1 P hP)).tail
    (trace_step2 P)).tail (trace_step3 P)

theorem trace_reach4 (P : Outcome → Prop) (hP : P boomOutcome) :
    Relation.ReflTransGen (Step P) initState traceS4 :=
  (trace_reach3 P hP).tail (trace_step4 P)

theorem trace_reach5 (P : Outcome → Prop) (hP : P boomOutcome)
    (hP2 : P retryOutcome) :
    Relation.ReflTransGen (Step P) initState traceS5 :=
  (trace_reach4 P hP).tail (trace_step5 P hP2)

theorem length_insertByCreatedDesc (j : JobRow) (l : List JobRow) :
    (insertByCreatedDesc j l).length = l.length + 1 := by
  induction l with
  | nil => rfl
  | cons k ks ih =>
    unfold insertByCreatedDesc
    split
    · rfl
    · simp [ih]

theorem length_sortByCreatedDesc (l : List JobRow) :
    (sortByCreatedDesc l).length = l.length := by
  induction l with
  | nil => rfl
  | cons j js ih => simp [sortByCreatedDesc, length_insertByCreatedDesc, ih]

theorem list_total_eq (db : DBState) (page per_page : Nat)
    (status : Option JobStatus) :
    (list_jobs_endpoint db page per_page status).total
      = min 1000 (matchCount db status) := by
  unfold list_jobs_endpoint DBState.get_jobs matchCount
  cases status <;>
    simp [List.length_take, length_sortByCreatedDesc]

theorem rowToResponse_progress (j : JobRow) :
    ((rowToResponse j).progress = 1 ∧
      (rowToResponse j).current_stage = .completed ∧
      (rowToResponse j).status = .completed) ∨
    ((rowToResponse j).progress = 0 ∧
      (rowToResponse j).current_stage = .upload ∧
      (rowToResponse j).status ≠ .completed) := by
  by_cases h : j.status = .completed
  · left
    simp [rowToResponse, h]
  · right
    simp [rowToResponse, h]

/-! ### Claim theorems -/

/-- **C1** (counterexample): the claimed steady-state invariant fails on the
code. Through the public operations (upload, background execution that
raises `EngineFailure("boom")`, then retry) the store reaches a state whose
job `"a"` is PENDING yet carries both the previous failure's error message
and a non-null result payload — contradicting "a job in PENDING or
PROCESSING has neither a result nor an error_message". -/
theorem c1_counterexample :
    Reachable (fun _ => True) traceS5 ∧
    traceS5.db.findJob "a" = some c1PendingRow ∧
    c1PendingRow.status = .pending ∧
    c1PendingRow.error_message = some "boom" ∧
    c1PendingRow.result_data ≠ none :=
  ⟨trace_reach5 (fun _ => True) trivial trivial, by decide, rfl, rfl,
   by decide⟩

/-- **C1** (amended): for every job reachable through the public
operations, a COMPLETED job has a non-null result payload, and — provided
every failure description raised by the engine or normalization is
non-empty — a FAILED job has a non-null error_message. The claimed clause
that PENDING/PROCESSING jobs carry neither a result nor an error_message
does not hold: retry resets a FAILED job to PENDING without clearing
either field (see the counterexample). -/
theorem c1_steady_state_amended (P : Outcome → Prop) (s : SysState)
    (hNE : ∀ o, P o → NEOutcome o) (hs : Reachable P s) :
    ∀ j ∈ s.db.jobs,
      (j.status = .completed → j.result_data ≠ none) ∧
      (j.status = .failed → j.error_message ≠ none) := by
  obtain ⟨hinv, hfe⟩ := reachable_inv_failed P s hNE hs
  intro j hj
  exact ⟨hinv.completed_result j hj, hfe j hj⟩

/-- **C1** witness: the amended invariant evaluated on the concrete failed
state of the trace. -/
theorem c1_steady_state_amended_witness :
    c1FailedRow ∈ traceS4.db.jobs ∧ c1FailedRow.error_message ≠ none :=
  ⟨by decide,
   (c1_steady_state_amended NEOutcome traceS4 (fun _ ho => ho)
     (trace_reach4 NEOutcome (by simp [NEOutcome, boomOutcome]))
     c1FailedRow (by decide)).2 (by decide)⟩

/-- **C2**: `save_result` is atomic. In the transaction-level interleaving
semantics every reachable state satisfies the claimed observability
conditions: no job row is COMPLETED with a missing result payload, and no
SpeakerSegment row exists while its job row is still PENDING (all three
effects of `save_job_result` are applied in one transaction, and the
inductive invariant shows no interleaving separates them). -/
theorem c2_save_result_atomic (P : Outcome → Prop) (s : SysState)
    (hs : Reachable P s) :
    (∀ j ∈ s.db.jobs, j.status = .completed → j.result_data ≠ none) ∧
    (∀ r ∈ s.db.speaker_segments, ∀ j ∈ s.db.jobs,
        j.job_id = r.job_id → j.status ≠ .pending) := by
  have hinv := reachable_inv P s hs
  refine ⟨hinv.completed_result, ?_⟩
  intro r hr j hj hid
  rw [hinv.seg_completed r hr j hj hid]
  decide

/-- **C2** witness: the invariant evaluated on the concrete trace state in
which job `"a"` is completed with a stored result. -/
theorem c2_save_result_atomic_witness :
    c1CompletedRow ∈ traceS3.db.jobs ∧ c1CompletedRow.result_data ≠ none :=
  ⟨by decide,
   (c2_save_result_atomic (fun _ => True) traceS3
     (trace_reach3 (fun _ => True) trivial)).1 c1CompletedRow (by decide)
     (by decide)⟩

/-- **C3** (counterexample): when the engine raises with an *empty*
description, `update_job_status` takes the Python-falsy branch
(`if error_message:`) and leaves `error_message` unchanged (NULL for a
fresh job), so the final error_message is not equal to the cause's
description `""`. The status still ends up FAILED. -/
theorem c3_counterexample :
    ((applyTxns "a" (processTxns none (.engineRaise "" 1)) 1
        dbPendingA).findJob "a").map (fun j => (j.status, j.error_message))
      = some (JobStatus.failed, none) := by decide

/-- **C3** (amended): a background run whose engine call raises (or that
faults between transcription and saving) always leaves the job FAILED —
never stuck in PROCESSING — and records `error_message = str(e)` whenever
the description is non-empty; an empty description leaves the previous
error_message in place. -/
theorem c3_background_failure_amended (db : DBState) (jid : String)
    (lang : Option String) (msg : String) (elapsed : Rat) (now : Nat)
    (j : JobRow) (hfind : db.findJob jid = some j) :
    (∃ j1, (applyTxns jid (processTxns lang (.engineRaise msg elapsed)) now
        db).findJob jid = some j1 ∧ j1.status = .failed ∧
        (msg ≠ "" → j1.error_message = some msg)) ∧
    (∃ j2, (applyTxns jid (processTxns lang (.normFault msg)) now
        db).findJob jid = some j2 ∧ j2.status = .failed ∧
        (msg ≠ "" → j2.error_message = some msg)) := by
  obtain ⟨hmem, hid⟩ := findJob_mem db jid j hfind
  constructor
  · have h1 : (applyTxns jid (processTxns lang (.engineRaise msg elapsed))
        now db).findJob jid
        = some (updRow .failed (some msg) (now + 1 + 1)
            (saveRow (failedRunResult lang elapsed msg) (now + 1)
              (updRow .processing none now j))) := by
      simp only [processTxns, applyTxns, applyTxn]
      rw [findJob_update, findJob_save, findJob_update, hfind]
      simp [hid, updRow_job_id, saveRow_job_id]
    refine ⟨_, h1, by rw [updRow_status], fun hne => ?_⟩
    rw [updRow_error_of_truthy _ _ _ _ hne]
  · have h2 : (applyTxns jid (processTxns lang (.normFault msg)) now
        db).findJob jid
        = some (updRow .failed (some msg) (now + 1)
            (updRow .processing none now j)) := by
      simp only [processTxns, applyTxns, applyTxn]
      rw [findJob_update, findJob_update, hfind]
      simp [hid, updRow_job_id]
    refine ⟨_, h2, by rw [updRow_status], fun hne => ?_⟩
    rw [updRow_error_of_truthy _ _ _ _ hne]

/-- **C3** witness: the amended theorem evaluated on a concrete pending job
and the failure `EngineFailure("boom")`. -/
theorem c3_background_failure_amended_witness :
    ∃ j1, (applyTxns "a" (processTxns none (.engineRaise "boom" 1)) 1
        dbPendingA).findJob "a" = some j1 ∧ j1.status = .failed ∧
        ("boom" ≠ "" → j1.error_message = some "boom") :=
  (c3_background_failure_amended dbPendingA "a" none "boom" 1 1 pendingRowA
    (by decide)).1

/-- **C4** (counterexample): cancelling an already-CANCELLED job succeeds.
The endpoint only rejects statuses `"completed"` and `"failed"`
(`if job["status"] in ["completed", "failed"]`), so CANCELLED is not
treated as terminal, contradicting "for every job already in a terminal
status (COMPLETED, FAILED, or CANCELLED) it fails with an InvalidState
error". -/
theorem c4_counterexample :
    cancelledRowC.status = .cancelled ∧
    (cancel_job_endpoint dbCancelledC "c" 1).1 =
      .ok "Job cancelled successfully" :=
  ⟨rfl, rfl⟩

/-- **C4** (amended): `cancel(job_id)` rejects exactly the statuses
COMPLETED and FAILED with a 400 error and leaves the store unchanged; from
any other status — PENDING, PROCESSING, and also CANCELLED itself — it
succeeds and sets the status to CANCELLED. -/
theorem c4_cancel_amended (db : DBState) (jid : String) (now : Nat)
    (j : JobRow) (hfind : db.findJob jid = some j) :
    ((j.status = .completed ∨ j.status = .failed) →
      cancel_job_endpoint db jid now =
        (.error (.badRequest "Cannot cancel completed or failed job"), db)) ∧
    (¬(j.status = .completed ∨ j.status = .failed) →
      (cancel_job_endpoint db jid now).1 = .ok "Job cancelled successfully" ∧
      (cancel_job_endpoint db jid now).2.findJob jid =
        some { j with status := .cancelled, updated_at := now }) := by
  obtain ⟨hmem, hid⟩ := findJob_mem db jid j hfind
  constructor
  · intro h
    unfold cancel_job_endpoint
    rw [hfind]
    simp [h]
  · intro h
    refine ⟨?_, ?_⟩
    · unfold cancel_job_endpoint
      rw [hfind]
      simp [h, DBState.update_job_status]
    · rw [cancel_db_eq db jid now j hfind h, findJob_update, hfind]
      simp [hid, updRow_none]

/-- **C4** witness: cancelling the concrete PROCESSING job `"b"`
succeeds. -/
theorem c4_cancel_amended_witness :
    (cancel_job_endpoint dbProcessingB "b" 7).1 =
      .ok "Job cancelled successfully" :=
  ((c4_cancel_amended dbProcessingB "b" 7 processingRowB (by decide)).2
    (by decide)).1

/-- **C5**: `retry(job_id)` succeeds only from status FAILED, resetting the
job to PENDING; from any other status the endpoint returns the 400 error
before touching the store, so the stored record is unchanged. -/
theorem c5_retry_only_failed (db : DBState) (jid : String) (now : Nat)
    (j : JobRow) (hfind : db.findJob jid = some j) :
    (j.status ≠ .failed →
      retry_job_endpoint db jid now =
        (.error (.badRequest "Only failed jobs can be retried"), db)) ∧
    (j.status = .failed →
      (∃ resp, (retry_job_endpoint db jid now).1 = .ok resp ∧
        resp.status = .pending) ∧
      (retry_job_endpoint db jid now).2.findJob jid =
        some { j with status := .pending, updated_at := now }) := by
  obtain ⟨hmem, hid⟩ := findJob_mem db jid j hfind
  constructor
  · intro h
    unfold retry_job_endpoint
    rw [hfind]
    simp [h]
  · intro h
    refine ⟨⟨{ job_id := jid, status := .pending, created_at := j.created_at,
               updated_at := now, audio_file := j.filename,
               model_size := j.model_size,
               enable_diarization := j.enable_diarization,
               enable_alignment := j.enable_alignment, progress := 0,
               current_stage := .upload, processing_time := none,
               audio_duration := none, language := none, confidence := none,
               error_message := none, result := none }, ?_, rfl⟩, ?_⟩
    · unfold retry_job_endpoint
      rw [hfind]
      simp [h]
    · rw [retry_db_eq db jid now j hfind h, findJob_update, hfind]
      simp [hid, updRow_none]

/-- **C5** witness: retrying the concrete FAILED job `"d"` resets it to
PENDING. -/
theorem c5_retry_only_failed_witness :
    (retry_job_endpoint dbFailedD "d" 9).2.findJob "d" =
      some { failedRowD with status := .pending, updated_at := 9 } :=
  ((c5_retry_only_failed dbFailedD "d" 9 failedRowD (by decide)).2
    (by decide)).2

/-- **C6** (counterexample): updating a job_id absent from the store does
not fail: the UPDATE matches zero rows, the commit succeeds and the method
returns `True`, contradicting "for every job_id that does not exist in the
store it rejects the update". -/
theorem c6_counterexample :
    dbEmpty.findJob "nope" = none ∧
    (dbEmpty.update_job_status "nope" .cancelled none 5).1 = true :=
  ⟨rfl, rfl⟩

/-- **C6** (amended): `update_job_status` always refreshes `updated_at` on
the matching row, but it does *not* reject a non-existent job_id: it
returns `True` (success) in every case, leaving the store unchanged when no
row matches. -/
theorem c6_update_status_amended (db : DBState) (jid : String)
    (st : JobStatus) (msg : Option String) (now : Nat) :
    (∀ j ∈ (db.update_job_status jid st msg now).2.jobs,
        j.job_id = jid → j.updated_at = now) ∧
    (db.update_job_status jid st msg now).1 = true ∧
    (db.findJob jid = none → (db.update_job_status jid st msg now).2 = db) := by
  refine ⟨?_, rfl, ?_⟩
  · intro j hj hidj
    rw [update_jobs_eq] at hj
    obtain ⟨j0, hj0, hcase⟩ := mem_map_ite _ jid _ _ hj
    rcases hcase with ⟨hid0, heq⟩ | ⟨hid0, heq⟩ <;> subst heq
    · exact updRow_updated_at st msg now j0
    · exact absurd hidj hid0
  · intro hnone
    unfold DBState.findJob at hnone
    rw [List.find?_eq_none] at hnone
    have h2 : ∀ j ∈ db.jobs,
        (if j.job_id == jid then updRow st msg now j else j) = id j := by
      intro j hj
      have h3 := hnone j hj
      simp only [beq_iff_eq] at h3
      simp [h3]
    have hjobs2 : db.jobs.map
        (fun j => if j.job_id == jid then updRow st msg now j else j)
        = db.jobs := by
      rw [List.map_congr_left h2, List.map_id]
    unfold DBState.update_job_status
    simp only [hjobs2]

/-- **C6** witness: the amended behavior evaluated on the empty store. -/
theorem c6_update_status_amended_witness :
    dbEmpty.findJob "zz" = none ∧
    (dbEmpty.update_job_status "zz" .failed none 3).2 = dbEmpty :=
  ⟨by decide,
   (c6_update_status_amended dbEmpty "zz" .failed none 3).2.2 (by decide)⟩

/-- **C7** (counterexample): with 1001 stored jobs and no status filter,
the listing reports `total = 1000` while the full count of matching jobs is
1001: the "total" query is issued with `limit=1000`, so the reported total
is capped and is not the full count. -/
theorem c7_counterexample :
    matchCount dbMany none = 1001 ∧
    (list_jobs_endpoint dbMany 1 10 none).total = 1000 := by
  have h1 : matchCount dbMany none = 1001 := by
    simp [matchCount, dbMany]
  exact ⟨h1, by rw [list_total_eq, h1]; decide⟩

/-- **C7** (amended): for every stored set of jobs and every status filter,
the total reported by the job listing equals the count of matching jobs
*capped at 1000* (the second query is issued with `limit=1000`), and this
value is independent of the page's limit and offset. -/
theorem c7_list_total_amended (db : DBState) (page per_page : Nat)
    (status : Option JobStatus) :
    (list_jobs_endpoint db page per_page status).total
      = min 1000 (matchCount db status) :=
  list_total_eq db page per_page status

/-- **C8**: speaker fields are never null for a completed run. Every
speaker-segment and word-segment row a successful background run inserts
carries `some (speaker or "UNKNOWN")`: the normalization step applies
`.get("speaker", "UNKNOWN")` to every engine segment and word, so an entry
whose engine output lacks a speaker label is stored with the sentinel
`"UNKNOWN"`. -/
theorem c8_speaker_never_null (db : DBState) (jid : String)
    (lang : Option String) (res : EngResult) (elapsed : Rat) (now : Nat) :
    (∀ r ∈ (applyTxns jid (processTxns lang (.success res elapsed)) now
        db).speaker_segments,
      r ∈ db.speaker_segments ∨
        (r.speaker ≠ none ∧
          ∃ sg ∈ res.segments, r.speaker = some (sg.speaker.getD "UNKNOWN"))) ∧
    (∀ w ∈ (applyTxns jid (processTxns lang (.success res elapsed)) now
        db).word_segments,
      w ∈ db.word_segments ∨
        (w.speaker ≠ none ∧
          ∃ sg ∈ res.segments, ∃ wd ∈ sg.words,
            w.speaker = some (wd.speaker.getD "UNKNOWN"))) := by
  have hsegs : (applyTxns jid (processTxns lang (.success res elapsed)) now
      db).speaker_segments
      = db.speaker_segments
        ++ (res.segments.map normalizeSegment).map (segRowOf jid) := rfl
  have hwords : (applyTxns jid (processTxns lang (.success res elapsed)) now
      db).word_segments
      = db.word_segments
        ++ ((res.segments.map (fun s => s.words.map normalizeWord)).flatten).map
            (wordRowOf jid) := rfl
  constructor
  · intro r hr
    rw [hsegs] at hr
    rcases List.mem_append.mp hr with hold | hnew
    · exact Or.inl hold
    · right
      obtain ⟨x, hx, hxr⟩ := List.mem_map.mp hnew
      obtain ⟨sg, hsg, hsgx⟩ := List.mem_map.mp hx
      subst hsgx
      subst hxr
      refine ⟨by simp [segRowOf, normalizeSegment], sg, hsg, ?_⟩
      simp [segRowOf, normalizeSegment]
  · intro w hw
    rw [hwords] at hw
    rcases List.mem_append.mp hw with hold | hnew
    · exact Or.inl hold
    · right
      obtain ⟨x, hx, hxw⟩ := List.mem_map.mp hnew
      obtain ⟨ws, hws, hxws⟩ := List.mem_flatten.mp hx
      obtain ⟨sg, hsg, hsgws⟩ := List.mem_map.mp hws
      subst hsgws
      obtain ⟨wd, hwd, hwdx⟩ := List.mem_map.mp hxws
      subst hwdx
      subst hxw
      refine ⟨by simp [wordRowOf, normalizeWord], sg, hsg, wd, hwd, ?_⟩
      simp [wordRowOf, normalizeWord]

/-- **C8** witness: the unlabeled engine segment of `engResU` is stored
with the sentinel speaker `"UNKNOWN"`. -/
theorem c8_speaker_never_null_witness :
    segRowU.speaker = some "UNKNOWN" ∧
    (segRowU ∈ dbEmpty.speaker_segments ∨
      (segRowU.speaker ≠ none ∧
        ∃ sg ∈ engResU.segments,
          segRowU.speaker = some (sg.speaker.getD "UNKNOWN"))) :=
  ⟨rfl,
   (c8_speaker_never_null dbEmpty "u" none engResU 1 0).1 segRowU
     (by decide)⟩

/-- **C9**: every job view produced by `get_job` or `list_jobs` exposes
only the two progress values — `1.0` exactly when the stored status is
`"completed"` (with stage COMPLETED), `0.0` for every other status (with
stage UPLOAD); no intermediate progress value or stage is ever exposed. -/
theorem c9_progress_two_valued (db : DBState) (jid : String)
    (page per_page : Nat) (f : Option JobStatus) :
    (∀ r, get_job_endpoint db jid = .ok r →
      ((r.progress = 1 ∧ r.current_stage = .completed ∧
          r.status = .completed) ∨
       (r.progress = 0 ∧ r.current_stage = .upload ∧
          r.status ≠ .completed))) ∧
    (∀ r ∈ (list_jobs_endpoint db page per_page f).jobs,
      ((r.progress = 1 ∧ r.current_stage = .completed ∧
          r.status = .completed) ∨
       (r.progress = 0 ∧ r.current_stage = .upload ∧
          r.status ≠ .completed))) := by
  constructor
  · intro r hr
    unfold get_job_endpoint at hr
    cases hfind : db.findJob jid with
    | none => rw [hfind] at hr; simp at hr
    | some j =>
      rw [hfind] at hr
      have hrj : r = rowToResponse j := by
        cases hr
        rfl
      subst hrj
      exact rowToResponse_progress j
  · intro r hr
    have hr2 : r ∈ (db.get_jobs per_page ((page - 1) * per_page) f).map
        rowToResponse := hr
    obtain ⟨j, hj, hjr⟩ := List.mem_map.mp hr2
    subst hjr
    exact rowToResponse_progress j

/-- **C9** witness: the view of the concrete completed job `"x"`. -/
theorem c9_progress_two_valued_witness :
    ((rowToResponse completedRowX).progress = 1 ∧
      (rowToResponse completedRowX).current_stage = .completed ∧
      (rowToResponse completedRowX).status = .completed) ∨
    ((rowToResponse completedRowX).progress = 0 ∧
      (rowToResponse completedRowX).current_stage = .upload ∧
      (rowToResponse completedRowX).status ≠ .completed) :=
  (c9_progress_two_valued dbCompletedX "x" 1 10 none).1
    (rowToResponse completedRowX) rfl

/-- **C10**: `update_job_status` with no error-message argument modifies
only the `status` and `updated_at` columns of the matching row (every
other column, in particular `error_message` and `result_data`, is
unchanged, and the segment tables are untouched); consequently retry's
reset of a FAILED job to PENDING keeps the prior failure's
error message in the stored row. -/
theorem c10_update_status_frame (db : DBState) (jid : String)
    (st : JobStatus) (now : Nat) (j : JobRow) :
    ((db.update_job_status jid st none now).2.jobs
      = db.jobs.map (fun k => if k.job_id == jid
          then { k with status := st, updated_at := now } else k)) ∧
    ((db.update_job_status jid st none now).2.speaker_segments
      = db.speaker_segments) ∧
    ((db.update_job_status jid st none now).2.word_segments
      = db.word_segments) ∧
    (db.findJob jid = some j → j.status = .failed →
      (retry_job_endpoint db jid now).2.findJob jid
        = some { j with status := .pending, updated_at := now }) := by
  refine ⟨rfl, rfl, rfl, ?_⟩
  intro hfind hstat
  obtain ⟨hmem, hid⟩ := findJob_mem db jid j hfind
  rw [retry_db_eq db jid now j hfind hstat, findJob_update, hfind]
  simp [hid, updRow_none]

/-- **C10** witness: retrying the failed job `"d"` leaves its recorded
error message `"boom d"` in place. -/
theorem c10_update_status_frame_witness :
    (retry_job_endpoint dbFailedD "d" 11).2.findJob "d"
      = some { failedRowD with status := .pending, updated_at := 11 } ∧
    ({ failedRowD with
        status := JobStatus.pending,
        updated_at := 11 } : JobRow).error_message = some "boom d" :=
  ⟨(c10_update_status_frame dbFailedD "d" .pending 11 failedRowD).2.2.2
     (by decide) (by decide), rfl⟩

end WhisperX
